import Mathlib

/-!
A shallow embedding of the MongoDB bookstore script `queries.js` and of the
query/aggregation facade it relies on.  The script itself (`run`) is a fixed
sequence of driver calls wrapped in `try/catch/finally`; the collection
operations themselves (`find`, `updateOne`, `deleteOne`, `aggregate`,
`createIndex`) are provided by the MongoDB driver, which is not part of the
repository's sources, so those operations are modelled from the
specification's description of the QueryFacade.
-/

namespace BookstoreQueries

/-- Modelled from the spec: a dynamically-typed document value
(string, number, boolean, null; nested values and dates are not
exercised by the script).  Numbers are modelled as rationals, which is
faithful for the script's integer and decimal literals and for the
average accumulator. -/
inductive Value where
  | null : Value
  | str : String → Value
  | num : Rat → Value
  | bool : Bool → Value
deriving DecidableEq, Repr

/-- Modelled from the spec: a Document is an ordered mapping from field
name to value, represented as an association list. -/
abbrev Document := List (String × Value)

/-- Field lookup: the value of the first entry with the given field
name, if any. -/
def getField (d : Document) (k : String) : Option Value :=
  (d.find? (fun p => p.1 = k)).map (fun p => p.2)

/-- Modelled from the spec: a matching predicate of a filter clause —
equality or `$gt` on a numeric field (the two forms the script uses,
e.g. `{ genre: "Fiction" }` and `{ published_year: { $gt: 1950 } }`). -/
inductive Pred where
  | eq : Value → Pred
  | gt : Rat → Pred
deriving DecidableEq, Repr

/-- Modelled from the spec: a Filter is a mapping from field name to a
matching predicate; several clauses mean logical AND. -/
abbrev Filter := List (String × Pred)

/-- Whether a (possibly absent) field value satisfies one predicate.
An absent field matches nothing. -/
def matchesPred (v : Option Value) : Pred → Bool
  | .eq w => v = some w
  | .gt q => match v with
    | some (.num r) => q < r
    | _ => false

/-- Conjunction semantics: a document satisfies a filter iff it
satisfies every clause. -/
def matchesFilter (d : Document) (f : Filter) : Bool :=
  f.all (fun kp => matchesPred (getField d kp.1) kp.2)

/-- Modelled from the spec: `find(filter)` returns exactly the documents
of the collection satisfying the filter, in collection order
(`books.find({...}).toArray()` in the script). -/
def find (coll : List Document) (f : Filter) : List Document :=
  coll.filter (fun d => matchesFilter d f)

/-- Modelled from the spec: a `$set` on one field — overwrite the field
if present (the first entry with that name, which is the one `getField`
reads and the only one in a well-formed mapping), append it at the end
otherwise. -/
def setField (d : Document) (k : String) (v : Value) : Document :=
  match d with
  | [] => [(k, v)]
  | p :: ps => if p.1 = k then (k, v) :: ps else p :: setField ps k v

/-- Modelled from the spec: apply a `changes` mapping non-destructively —
the listed fields are overwritten, all others preserved
(`{ $set: { price: 15.0 } }` in the script). -/
def applySet (changes : List (String × Value)) (d : Document) : Document :=
  match changes with
  | [] => d
  | (k, v) :: rest => applySet rest (setField d k v)

/-- Modelled from the spec: `updateOne(filter, changes)` modifies the
first matching document, by natural (collection) order, and is a no-op
when nothing matches. -/
def updateOne (coll : List Document) (f : Filter) (changes : List (String × Value)) :
    List Document :=
  match coll with
  | [] => []
  | d :: ds =>
    if matchesFilter d f then applySet changes d :: ds
    else d :: updateOne ds f changes

/-- Modelled from the spec: `deleteOne(filter)` deletes the first
matching document by natural order and reports `deletedCount`
(`0` when nothing matches — a normal, successful outcome). -/
def deleteOne (coll : List Document) (f : Filter) : List Document × Nat :=
  match coll with
  | [] => ([], 0)
  | d :: ds =>
    if matchesFilter d f then (ds, 1)
    else
      let r := deleteOne ds f
      (d :: r.1, r.2)

/-- Insert a document into a list held sorted by the comparator `le`
(stable: an equal element goes after existing ones). -/
def insertSorted (le : Document → Document → Bool) (d : Document) :
    List Document → List Document
  | [] => [d]
  | e :: es => if le d e then d :: e :: es else e :: insertSorted le d es

/-- Modelled from the spec: a Sort stage reorders the documents by a
comparator (insertion sort; the engine's sort, viewed extensionally). -/
def sortBy (le : Document → Document → Bool) : List Document → List Document
  | [] => []
  | d :: ds => insertSorted le d (sortBy le ds)

/-- Modelled from the spec: a Page is a non-negative skip count and a
maximum row count. -/
structure Page where
  skip : Nat
  limit : Nat
deriving DecidableEq, Repr

/-- Modelled from the spec: the full result set of a `find` under a
fixed sort order: the matching documents, sorted by the comparator. -/
def sortedResult (coll : List Document) (f : Filter) (le : Document → Document → Bool) :
    List Document :=
  sortBy le (find coll f)

/-- Modelled from the spec: `find(filter, sort, page)` — filter, then
sort, then skip, then limit, in that order
(`books.find().skip(5).limit(5)` in the script). -/
def findPage (coll : List Document) (f : Filter) (le : Document → Document → Bool)
    (p : Page) : List Document :=
  ((sortedResult coll f le).drop p.skip).take p.limit

/-- The numeric value of a field, defaulting to 0 for absent or
non-numeric fields (used by accumulators and sort keys). -/
def getNum (d : Document) (k : String) : Rat :=
  match getField d k with
  | some (.num q) => q
  | _ => 0

/-- The value of a field, with MongoDB's `null` for an absent field
(the group key `"$genre"` of a document without a genre). -/
def getValD (d : Document) (k : String) : Value :=
  match getField d k with
  | some v => v
  | none => Value.null

/-- The distinct group keys produced by grouping the collection on a
field, in first-occurrence order. -/
def groupKeys (coll : List Document) (k : String) : List Value :=
  (coll.map (fun d => getValD d k)).dedup

/-- The partition of the collection with the given key value for the
grouping field. -/
def groupOf (coll : List Document) (k : String) (v : Value) : List Document :=
  coll.filter (fun d => getValD d k = v)

/-- Modelled from the spec: the `average` accumulator — the mean of a
numeric field over a partition. -/
def avgOf (g : List Document) (fld : String) : Rat :=
  (g.map (fun d => getNum d fld)).sum / (g.length : Rat)

/-- Modelled from the spec: a Group stage keyed on a field with a single
`average` accumulator: one output document per distinct key, carrying a
`_id` field holding the group key and one field per accumulator
(`{ $group: { _id: "$genre", avgPrice: { $avg: "$price" } } }`). -/
def groupAvg (coll : List Document) (keyFld accName accFld : String) : List Document :=
  (groupKeys coll keyFld).map (fun v =>
    [("_id", v), (accName, Value.num (avgOf (groupOf coll keyFld v) accFld))])

/-- Comparator sorting documents by descending numeric value of a field
(`{ $sort: { avgPrice: -1 } }`). -/
def descBy (fld : String) (a b : Document) : Bool :=
  getNum b fld ≤ getNum a fld

/-- Modelled from the spec: the script's first aggregation pipeline —
Group by genre computing the average price, then Sort by average price
descending. -/
def avgPriceByGenre (coll : List Document) : List Document :=
  sortBy (descBy "avgPrice") (groupAvg coll "genre" "avgPrice" "price")

/-- Modelled from the spec: an IndexSpec is an ordered sequence of
(field, direction) pairs identifying a composite index key
(`{ author: 1, published_year: 1 }`; `true` is ascending). -/
abbrev IndexSpec := List (String × Bool)

/-- Modelled from the spec: `createIndex(spec)` declares a composite
index — it records the spec if it is new and is a no-op (not an error)
when the same spec already exists. -/
def createIndex (idxs : List IndexSpec) (s : IndexSpec) : List IndexSpec :=
  if s ∈ idxs then idxs else idxs ++ [s]

/-- Modelled from the spec: the error taxonomy of the facade —
`ConnectivityError` and `MalformedRequestError` (`NotFoundError` is
explicitly not raised for zero-match operations). -/
inductive DbError where
  | connectivity
  | malformedRequest
deriving DecidableEq, Repr

/-- Modelled from the spec: an accumulator of a Group stage. -/
inductive Accumulator where
  | sum (fld : String)
  | avg (fld : String)
  | count
deriving DecidableEq, Repr

/-- Modelled from the spec: an AggregationStage is a tagged variant
over Group, Sort and Limit. -/
inductive AggregationStage where
  | group (keyFld : String) (accs : List (String × Accumulator))
  | sortStage (keys : List (String × Bool))
  | limit (n : Nat)
deriving DecidableEq, Repr

/-- Modelled from the spec: the underlying collection handle, the
external collaborator the facade consumes.  Every raw operation may
fail with a `DbError`. -/
structure CollectionHandle where
  rawFind : Filter → Except DbError (List Document)
  rawUpdateOne : Filter → List (String × Value) → Except DbError (Nat × Nat)
  rawDeleteOne : Filter → Except DbError Nat
  rawAggregate : List AggregationStage → Except DbError (List Document)
  rawCreateIndex : IndexSpec → Except DbError Unit

/-- Modelled from the spec: the QueryFacade — a typed pass-through
wrapper around the collection handle.  Each operation issues exactly one
raw call and returns its result as is: no retry, no catch, no logging. -/
def QueryFacade.find (h : CollectionHandle) (f : Filter) : Except DbError (List Document) :=
  h.rawFind f

/-- Facade `updateOne`: one raw call, result returned unmodified. -/
def QueryFacade.updateOne (h : CollectionHandle) (f : Filter)
    (changes : List (String × Value)) : Except DbError (Nat × Nat) :=
  h.rawUpdateOne f changes

/-- Facade `deleteOne`: one raw call, result returned unmodified. -/
def QueryFacade.deleteOne (h : CollectionHandle) (f : Filter) : Except DbError Nat :=
  h.rawDeleteOne f

/-- Facade `aggregate`: one raw call, result returned unmodified. -/
def QueryFacade.aggregate (h : CollectionHandle) (p : List AggregationStage) :
    Except DbError (List Document) :=
  h.rawAggregate p

/-- Facade `createIndex`: one raw call, result returned unmodified. -/
def QueryFacade.createIndex (h : CollectionHandle) (s : IndexSpec) : Except DbError Unit :=
  h.rawCreateIndex s

/-- An observable event of one execution of the script's `run`
function: the `client.connect()` call, the n-th awaited collection
operation, the `console.error` in the `catch` block, and the
`client.close()` call in the `finally` block. -/
inductive Event where
  | connect
  | op (n : Nat)
  | logError
  | close
deriving DecidableEq, Repr

/-- The number of awaited collection operations in the body of `run`
(queries.js lines 20–99): 9 finds (3 basic, 1 conjunction, 1 projected,
2 sorted, 2 paginated), 1 updateOne, 1 deleteOne, 3 aggregates and
2 createIndex calls. -/
def opsCount : Nat := 16

/-- The event trace of `run()` (queries.js lines 9–107): a `try` block
that connects and issues the operations in order, a `catch` block that
logs the first error, and a `finally` block that closes the client.
`failAt = none` is the run where every call succeeds; `failAt = some 0`
is the run where `client.connect()` itself throws; `failAt = some (j+1)`
is the run where the j-th collection operation throws (operations after
it are never issued). -/
def runTrace (failAt : Option Nat) : List Event :=
  (match failAt with
   | none => Event.connect :: (List.range opsCount).map Event.op
   | some 0 => [Event.connect, Event.logError]
   | some (j + 1) =>
     Event.connect :: (List.range (min (j + 1) opsCount)).map Event.op
       ++ [Event.logError])
  ++ [Event.close]

/-- The filter `{ title: "1984" }` of Task 2. -/
def filter1984 : Filter := [("title", Pred.eq (Value.str "1984"))]

/-- The changes `{ $set: { price: 15.0 } }` of Task 2. -/
def set15 : List (String × Value) := [("price", Value.num 15)]

/-- The filter `{ title: "Moby Dick" }` of Task 2. -/
def filterMoby : Filter := [("title", Pred.eq (Value.str "Moby Dick"))]

/-- The collection state after Task 2 of the script (queries.js lines
30–37): update the price of "1984" to 15, then delete "Moby Dick".
Every later read of the run (Tasks 3–5) sees exactly this state, since
reads, aggregations and index creation leave the documents unchanged. -/
def task2 (coll : List Document) : List Document :=
  (deleteOne (updateOne coll filter1984 set15) filterMoby).1

/-- The spec's concrete scenario fixture:
`{title:"1984", price:10}, {title:"Brave New World", price:12}`. -/
def demoColl : List Document :=
  [[("title", Value.str "1984"), ("price", Value.num 10)],
   [("title", Value.str "Brave New World"), ("price", Value.num 12)]]

/-- A collection handle whose every raw operation fails with a
connectivity error (an unreachable server). -/
def errHandle : CollectionHandle where
  rawFind := fun _ => Except.error DbError.connectivity
  rawUpdateOne := fun _ _ => Except.error DbError.connectivity
  rawDeleteOne := fun _ => Except.error DbError.connectivity
  rawAggregate := fun _ => Except.error DbError.connectivity
  rawCreateIndex := fun _ => Except.error DbError.connectivity

/-- A comparator used as a fixed sort order in concrete instances. -/
def natOrder : Document → Document → Bool := fun _ _ => true

/-- C1: each facade operation is a single pass-through call: an error
of the underlying handle is returned to the caller unmodified, with no
retry, no catch and no logging. -/
theorem facade_propagates_errors (h : CollectionHandle) (e : DbError) (f : Filter)
    (c : List (String × Value)) (p : List AggregationStage) (s : IndexSpec) :
    (h.rawFind f = Except.error e → QueryFacade.find h f = Except.error e) ∧
    (h.rawUpdateOne f c = Except.error e → QueryFacade.updateOne h f c = Except.error e) ∧
    (h.rawDeleteOne f = Except.error e → QueryFacade.deleteOne h f = Except.error e) ∧
    (h.rawAggregate p = Except.error e → QueryFacade.aggregate h p = Except.error e) ∧
    (h.rawCreateIndex s = Except.error e → QueryFacade.createIndex h s = Except.error e) :=
  ⟨id, id, id, id, id⟩

/-- Witness for C1: against an unreachable server, every facade
operation surfaces the connectivity error. -/
theorem facade_propagates_errors_witness :
    QueryFacade.find errHandle [] = Except.error DbError.connectivity ∧
    QueryFacade.updateOne errHandle [] [] = Except.error DbError.connectivity ∧
    QueryFacade.deleteOne errHandle [] = Except.error DbError.connectivity ∧
    QueryFacade.aggregate errHandle [] = Except.error DbError.connectivity ∧
    QueryFacade.createIndex errHandle [] = Except.error DbError.connectivity := by
  have h := facade_propagates_errors errHandle DbError.connectivity [] [] [] []
  exact ⟨h.1 rfl, h.2.1 rfl, h.2.2.1 rfl, h.2.2.2.1 rfl, h.2.2.2.2 rfl⟩

/-- C2: `find(F)` returns a document D iff D is in the collection and
satisfies every predicate clause of F (conjunction semantics), and
omits it otherwise. -/
theorem find_mem_iff (coll : List Document) (f : Filter) (D : Document) :
    D ∈ find coll f ↔
      D ∈ coll ∧ ∀ kp ∈ f, matchesPred (getField D kp.1) kp.2 = true := by
  simp [find, List.mem_filter, matchesFilter, List.all_eq_true]

/-- C3: paging a result set of size N under a fixed sort order with
skip S and limit L yields exactly `min L (N - S)` documents (truncated
subtraction, i.e. `min(L, max(0, N-S))`), namely the S-th through
(S+L-1)-th elements of the fully sorted result, with skip applied
before limit. -/
theorem findPage_window (coll : List Document) (f : Filter)
    (le : Document → Document → Bool) (S L : Nat) :
    (findPage coll f le ⟨S, L⟩).length = min L ((sortedResult coll f le).length - S) ∧
    findPage coll f le ⟨S, L⟩ = ((sortedResult coll f le).drop S).take L ∧
    ∀ i, i < L →
      (findPage coll f le ⟨S, L⟩)[i]? = (sortedResult coll f le)[S + i]? := by
  refine ⟨?_, rfl, ?_⟩
  · simp [findPage]
  · intro i hi
    show (((sortedResult coll f le).drop S).take L)[i]? = _
    rw [List.getElem?_take_of_lt hi, List.getElem?_drop]

/-- Witness for C3: page {skip 1, limit 1} of the two-document fixture
is its second element. -/
theorem findPage_window_witness :
    (0 : Nat) < 1 ∧
    (findPage demoColl [] natOrder ⟨1, 1⟩)[0]? = (sortedResult demoColl [] natOrder)[1]? :=
  ⟨by decide, (findPage_window demoColl [] natOrder 1 1).2.2 0 (by decide)⟩

/-- `deleteOne` on a collection with no matching document is the
identity and reports a count of 0. -/
theorem deleteOne_no_match (coll : List Document) (f : Filter)
    (h : ∀ d ∈ coll, matchesFilter d f = false) :
    deleteOne coll f = (coll, 0) := by
  induction coll with
  | nil => rfl
  | cons d ds ih =>
    have hd := h d (List.mem_cons_self d ds)
    have hds := ih (fun e he => h e (List.mem_cons_of_mem d he))
    simp [deleteOne, hd, hds]

/-- `deleteOne` never reports more than one deleted document. -/
theorem deleteOne_count_le_one (coll : List Document) (f : Filter) :
    (deleteOne coll f).2 ≤ 1 := by
  induction coll with
  | nil => exact Nat.zero_le 1
  | cons d ds ih =>
    by_cases hd : matchesFilter d f
    · simp [deleteOne, hd]
    · simpa [deleteOne, hd] using ih

/-- C7: on a filter matching zero documents, `deleteOne` succeeds with
`deletedCount = 0` and leaves the collection unchanged, so a subsequent
`find` with the same filter still returns the empty sequence; in
general `deleteOne` deletes at most one document. -/
theorem deleteOne_zero_match (coll : List Document) (f : Filter)
    (h : ∀ d ∈ coll, matchesFilter d f = false) :
    deleteOne coll f = (coll, 0) ∧
    find (deleteOne coll f).1 f = [] ∧
    ∀ c' : List Document, (deleteOne c' f).2 ≤ 1 := by
  refine ⟨deleteOne_no_match coll f h, ?_, fun c' => deleteOne_count_le_one c' f⟩
  rw [deleteOne_no_match coll f h]
  simpa [find, List.filter_eq_nil_iff] using h

/-- Witness for C7: deleting "Moby Dick" from the fixture (which has no
such title) is a counted no-op. -/
theorem deleteOne_zero_match_witness :
    deleteOne demoColl filterMoby = (demoColl, 0) ∧
    find (deleteOne demoColl filterMoby).1 filterMoby = [] ∧
    ∀ c' : List Document, (deleteOne c' filterMoby).2 ≤ 1 :=
  deleteOne_zero_match demoColl filterMoby (by decide)

/-- C8: `createIndex` is idempotent — issuing the same spec a second
time is a no-op, not an error, and the set of indexes (in particular its
count) is unchanged by the second call. -/
theorem createIndex_idempotent (idxs : List IndexSpec) (s : IndexSpec) :
    createIndex (createIndex idxs s) s = createIndex idxs s ∧
    (createIndex (createIndex idxs s) s).length = (createIndex idxs s).length := by
  have h : createIndex (createIndex idxs s) s = createIndex idxs s := by
    unfold createIndex
    by_cases hs : s ∈ idxs
    · simp [hs]
    · simp [hs]
  exact ⟨h, by rw [h]⟩

/-- C9: on every execution path of `run` — all operations succeeding,
the connect itself failing, or any operation failing part way — the
client is connected exactly once, at the start, and closed exactly
once, at the end. -/
theorem runTrace_scoped_resource (failAt : Option Nat) :
    (runTrace failAt).count Event.connect = 1 ∧
    (runTrace failAt).count Event.close = 1 ∧
    (runTrace failAt).head? = some Event.connect ∧
    (runTrace failAt).getLast? = some Event.close := by
  have hop : ∀ n : Nat, ∀ e : Event, (∀ m : Nat, Event.op m ≠ e) →
      ((List.range n).map Event.op).count e = 0 := by
    intro n e he
    refine List.count_eq_zero.2 (fun hmem => ?_)
    obtain ⟨m, _, hm⟩ := List.mem_map.1 hmem
    exact he m hm
  match failAt with
  | none =>
    refine ⟨?_, ?_, rfl, List.getLast?_concat _⟩
    · simp [runTrace, List.count_append, List.count_cons,
        hop opsCount Event.connect (fun m h => by cases h)]
    · simp [runTrace, List.count_append, List.count_cons,
        hop opsCount Event.close (fun m h => by cases h)]
  | some 0 =>
    exact ⟨by decide, by decide, rfl, List.getLast?_concat _⟩
  | some (j + 1) =>
    refine ⟨?_, ?_, rfl, List.getLast?_concat _⟩
    · simp [runTrace, List.count_append, List.count_cons,
        hop (min (j + 1) opsCount) Event.connect (fun m h => by cases h)]
    · simp [runTrace, List.count_append, List.count_cons,
        hop (min (j + 1) opsCount) Event.close (fun m h => by cases h)]

/-- After `setField`, the written field reads back as the new value. -/
theorem find?_setField_self (d : Document) (k : String) (v : Value) :
    (setField d k v).find? (fun p => p.1 = k) = some (k, v) := by
  induction d with
  | nil => simp [setField]
  | cons p ps ih =>
    by_cases hp : p.1 = k
    · simp [setField, hp]
    · simp [setField, hp, ih]

/-- `setField` leaves every other field's first entry untouched. -/
theorem find?_setField_ne (d : Document) (k k' : String) (v : Value) (h : k' ≠ k) :
    (setField d k v).find? (fun p => p.1 = k') = d.find? (fun p => p.1 = k') := by
  induction d with
  | nil => simp [setField, Ne.symm h]
  | cons p ps ih =>
    by_cases hp : p.1 = k
    · have hp' : ¬p.1 = k' := by
        rw [hp]
        exact Ne.symm h
      simp only [setField, if_pos hp]
      rw [List.find?_cons_of_neg _ (by simpa using Ne.symm h),
        List.find?_cons_of_neg _ (by simpa using hp')]
    · simp only [setField, if_neg hp]
      by_cases hq : p.1 = k'
      · rw [List.find?_cons_of_pos _ (by simpa using hq),
          List.find?_cons_of_pos _ (by simpa using hq)]
      · rw [List.find?_cons_of_neg _ (by simpa using hq),
          List.find?_cons_of_neg _ (by simpa using hq), ih]

/-- `applySet` does not touch a field outside the changes mapping. -/
theorem find?_applySet_not_mem (c : List (String × Value)) (e : Document) (k : String)
    (h : k ∉ c.map Prod.fst) :
    (applySet c e).find? (fun p => p.1 = k) = e.find? (fun p => p.1 = k) := by
  induction c generalizing e with
  | nil => rfl
  | cons kv rest ih =>
    have hk : k ≠ kv.1 := by
      intro hc
      exact h (by simp [hc])
    have hrest : k ∉ rest.map Prod.fst := fun hc => h (by simp [hc])
    calc (applySet (kv :: rest) e).find? (fun p => p.1 = k)
        = (applySet rest (setField e kv.1 kv.2)).find? (fun p => p.1 = k) := rfl
      _ = (setField e kv.1 kv.2).find? (fun p => p.1 = k) := ih _ hrest
      _ = e.find? (fun p => p.1 = k) := find?_setField_ne e kv.1 k kv.2 hk

/-- A field outside the changes mapping keeps its previous value. -/
theorem getField_applySet_not_mem (c : List (String × Value)) (e : Document) (k : String)
    (h : k ∉ c.map Prod.fst) :
    getField (applySet c e) k = getField e k := by
  unfold getField
  rw [find?_applySet_not_mem c e k h]

/-- With pairwise-distinct change keys, every changed field reads back
as the value listed for it. -/
theorem find?_applySet_mem (c : List (String × Value)) (d : Document) (k : String) (v : Value)
    (hnd : (c.map Prod.fst).Nodup) (hmem : (k, v) ∈ c) :
    (applySet c d).find? (fun p => p.1 = k) = some (k, v) := by
  induction c generalizing d with
  | nil => cases hmem
  | cons kv rest ih =>
    obtain ⟨k0, v0⟩ := kv
    rw [List.map_cons, List.nodup_cons] at hnd
    rcases List.mem_cons.1 hmem with hkv | hkv
    · cases hkv
      calc (applySet ((k, v) :: rest) d).find? (fun p => p.1 = k)
          = (applySet rest (setField d k v)).find? (fun p => p.1 = k) := rfl
        _ = (setField d k v).find? (fun p => p.1 = k) :=
            find?_applySet_not_mem rest _ k hnd.1
        _ = some (k, v) := find?_setField_self d k v
    · exact ih (setField d k0 v0) hnd.2 hkv

/-- With pairwise-distinct change keys, every changed field is
overwritten with the value listed for it. -/
theorem getField_applySet_mem (c : List (String × Value)) (d : Document) (k : String) (v : Value)
    (hnd : (c.map Prod.fst).Nodup) (hmem : (k, v) ∈ c) :
    getField (applySet c d) k = some v := by
  unfold getField
  rw [find?_applySet_mem c d k v hnd hmem]
  rfl

/-- Writing back the value a field already holds (as its first entry)
changes nothing. -/
theorem setField_eq_self (e : Document) (k : String) (v : Value)
    (h : e.find? (fun p => p.1 = k) = some (k, v)) :
    setField e k v = e := by
  induction e with
  | nil => simp at h
  | cons p ps ih =>
    by_cases hp : p.1 = k
    · rw [List.find?_cons_of_pos _ (by simpa using hp)] at h
      cases h
      simp [setField, hp]
    · rw [List.find?_cons_of_neg _ (by simpa using hp)] at h
      simp [setField, hp, ih h]

/-- Applying the same changes mapping (with pairwise-distinct keys)
twice to a document is the same as applying it once. -/
theorem applySet_idem (c : List (String × Value)) (d : Document)
    (hnd : (c.map Prod.fst).Nodup) :
    applySet c (applySet c d) = applySet c d := by
  induction c generalizing d with
  | nil => rfl
  | cons kv rest ih =>
    rw [List.map_cons, List.nodup_cons] at hnd
    show applySet rest (setField (applySet rest (setField d kv.1 kv.2)) kv.1 kv.2)
        = applySet rest (setField d kv.1 kv.2)
    rw [setField_eq_self _ _ _ (by
      rw [find?_applySet_not_mem rest _ kv.1 hnd.1]
      exact find?_setField_self d kv.1 kv.2)]
    exact ih _ hnd.2

/-- `updateOne` on a filter matching no document is the identity. -/
theorem updateOne_no_match (coll : List Document) (f : Filter) (c : List (String × Value))
    (h : ∀ e ∈ coll, matchesFilter e f = false) :
    updateOne coll f c = coll := by
  induction coll with
  | nil => rfl
  | cons d ds ih =>
    have hd := h d (List.mem_cons_self d ds)
    simp [updateOne, hd, ih (fun e he => h e (List.mem_cons_of_mem d he))]

/-- `updateOne` rewrites exactly the first matching document and leaves
every document before and after it untouched. -/
theorem updateOne_split (pre post : List Document) (d : Document) (f : Filter)
    (c : List (String × Value))
    (hpre : ∀ e ∈ pre, matchesFilter e f = false) (hd : matchesFilter d f = true) :
    updateOne (pre ++ d :: post) f c = pre ++ applySet c d :: post := by
  induction pre with
  | nil => simp [updateOne, hd]
  | cons e es ih =>
    have he := hpre e (List.mem_cons_self e es)
    simp [updateOne, he, ih (fun x hx => hpre x (List.mem_cons_of_mem e hx))]

/-- C5: `updateOne` modifies at most one document — the first matching
by natural order — and non-destructively: the fields listed in the
changes are overwritten, every other field keeps its previous value;
concretely, after updating the price of "1984" to 15 in the fixture,
`find({title:"1984"})` returns exactly one document, with price 15 and
the title unchanged. -/
theorem updateOne_first_match_frame (pre post : List Document) (d : Document) (f : Filter)
    (c : List (String × Value))
    (hpre : ∀ e ∈ pre, matchesFilter e f = false) (hd : matchesFilter d f = true)
    (hnd : (c.map Prod.fst).Nodup) :
    updateOne (pre ++ d :: post) f c = pre ++ applySet c d :: post ∧
    (∀ k v, (k, v) ∈ c → getField (applySet c d) k = some v) ∧
    (∀ k, k ∉ c.map Prod.fst → getField (applySet c d) k = getField d k) ∧
    find (updateOne demoColl filter1984 set15) filter1984 =
      [[("title", Value.str "1984"), ("price", Value.num 15)]] :=
  ⟨updateOne_split pre post d f c hpre hd,
   fun k v hm => getField_applySet_mem c d k v hnd hm,
   fun k hk => getField_applySet_not_mem c d k hk,
   by decide⟩

/-- Witness for C5: on the spec's two-document fixture the update
rewrites exactly the first document. -/
theorem updateOne_first_match_frame_witness :
    updateOne ([] ++ [("title", Value.str "1984"), ("price", Value.num 10)] ::
        [[("title", Value.str "Brave New World"), ("price", Value.num 12)]])
        filter1984 set15 =
      [] ++ applySet set15 [("title", Value.str "1984"), ("price", Value.num 10)] ::
        [[("title", Value.str "Brave New World"), ("price", Value.num 12)]] :=
  (updateOne_first_match_frame []
    [[("title", Value.str "Brave New World"), ("price", Value.num 12)]]
    [("title", Value.str "1984"), ("price", Value.num 10)]
    filter1984 set15 (by decide) (by decide) (by decide)).1

/-- Counterexample to C6 as stated: updating `{a: 1}` to `{a: 2}` on a
collection of two `{a: 1}` documents is not idempotent — the second
call rewrites the second document, because the first no longer
matches. -/
theorem updateOne_idempotent_counterexample :
    updateOne
        (updateOne [[("a", Value.num 1)], [("a", Value.num 1)]]
          [("a", Pred.eq (Value.num 1))] [("a", Value.num 2)])
        [("a", Pred.eq (Value.num 1))] [("a", Value.num 2)]
      ≠
      updateOne [[("a", Value.num 1)], [("a", Value.num 1)]]
        [("a", Pred.eq (Value.num 1))] [("a", Value.num 2)] := by
  decide

/-- Changes whose keys avoid every field the filter constrains do not
change the filter's verdict on a document. -/
theorem matchesFilter_applySet_of_disjoint (f : Filter) (c : List (String × Value))
    (hdisj : ∀ kp ∈ f, kp.1 ∉ c.map Prod.fst) (e : Document) :
    matchesFilter (applySet c e) f = matchesFilter e f := by
  unfold matchesFilter
  induction f with
  | nil => rfl
  | cons kp rest ih =>
    have h1 : getField (applySet c e) kp.1 = getField e kp.1 :=
      getField_applySet_not_mem c e kp.1 (hdisj kp (List.mem_cons_self kp rest))
    simp [List.all_cons, h1, ih (fun x hx => hdisj x (List.mem_cons_of_mem kp hx))]

/-- C6 amended: `updateOne` is idempotent for identical changes payloads
with pairwise-distinct keys, provided the fields written are disjoint
from the fields the filter constrains (as in the script, which filters
on `title` and sets `price`); without that proviso the second call can
rewrite a second document. -/
theorem updateOne_idempotent_of_disjoint (f : Filter) (c : List (String × Value))
    (hnd : (c.map Prod.fst).Nodup)
    (hdisj : ∀ kp ∈ f, kp.1 ∉ c.map Prod.fst) (coll : List Document) :
    updateOne (updateOne coll f c) f c = updateOne coll f c := by
  induction coll with
  | nil => rfl
  | cons d ds ih =>
    by_cases hd : matchesFilter d f
    · have hstill : matchesFilter (applySet c d) f = true :=
        (matchesFilter_applySet_of_disjoint f c hdisj d).trans hd
      simp [updateOne, hd, hstill, applySet_idem c d hnd]
    · simp [updateOne, hd, ih]

/-- Witness for C6 amended: the script's own update (filter on title,
set price) applied twice to the fixture equals it applied once. -/
theorem updateOne_idempotent_of_disjoint_witness :
    updateOne (updateOne demoColl filter1984 set15) filter1984 set15 =
      updateOne demoColl filter1984 set15 :=
  updateOne_idempotent_of_disjoint filter1984 set15 (by decide) (by decide) demoColl

/-- Membership in an insertion is membership in the list or being the
inserted element. -/
theorem mem_insertSorted (le : Document → Document → Bool) (d x : Document)
    (l : List Document) : x ∈ insertSorted le d l ↔ x = d ∨ x ∈ l := by
  induction l with
  | nil => simp [insertSorted]
  | cons e es ih =>
    by_cases h : le d e
    · simp [insertSorted, h]
    · simp only [insertSorted, if_neg h, List.mem_cons, ih]
      tauto

/-- Insertion is a permutation of consing. -/
theorem insertSorted_perm (le : Document → Document → Bool) (d : Document)
    (l : List Document) : List.Perm (insertSorted le d l) (d :: l) := by
  induction l with
  | nil => exact List.Perm.refl _
  | cons e es ih =>
    by_cases h : le d e
    · rw [insertSorted, if_pos h]
    · rw [insertSorted, if_neg h]
      exact (ih.cons e).trans (List.Perm.swap d e es)

/-- The sort stage permutes its input. -/
theorem sortBy_perm (le : Document → Document → Bool) (l : List Document) :
    List.Perm (sortBy le l) l := by
  induction l with
  | nil => exact List.Perm.refl _
  | cons d ds ih => exact (insertSorted_perm le d (sortBy le ds)).trans (ih.cons d)

/-- Inserting into a list sorted by a total transitive comparator keeps
it sorted. -/
theorem insertSorted_pairwise (le : Document → Document → Bool)
    (htot : ∀ a b, le a b = true ∨ le b a = true)
    (htrans : ∀ a b c, le a b = true → le b c = true → le a c = true)
    (d : Document) (l : List Document) (hl : l.Pairwise (fun a b => le a b = true)) :
    (insertSorted le d l).Pairwise (fun a b => le a b = true) := by
  induction l with
  | nil => simp [insertSorted]
  | cons e es ih =>
    rcases List.pairwise_cons.1 hl with ⟨he, hes⟩
    by_cases h : le d e
    · rw [insertSorted, if_pos h]
      refine List.pairwise_cons.2 ⟨?_, hl⟩
      intro x hx
      rcases List.mem_cons.1 hx with rfl | hx
      · exact h
      · exact htrans d e x h (he x hx)
    · rw [insertSorted, if_neg h]
      refine List.pairwise_cons.2 ⟨?_, ih hes⟩
      intro x hx
      rcases (mem_insertSorted le d x es).1 hx with rfl | hx
      · rcases htot x e with h1 | h1
        · exact absurd h1 h
        · exact h1
      · exact he x hx

/-- The sort stage produces a list sorted by any total transitive
comparator. -/
theorem sortBy_pairwise (le : Document → Document → Bool)
    (htot : ∀ a b, le a b = true ∨ le b a = true)
    (htrans : ∀ a b c, le a b = true → le b c = true → le a c = true)
    (l : List Document) :
    (sortBy le l).Pairwise (fun a b => le a b = true) := by
  induction l with
  | nil => exact List.Pairwise.nil
  | cons d ds ih => exact insertSorted_pairwise le htot htrans d _ ih

/-- Grouping partitions the input: the group sizes over the distinct
keys sum to the size of the collection. -/
theorem sum_groupOf_lengths (coll : List Document) (k : String) :
    ((groupKeys coll k).map (fun v => (groupOf coll k v).length)).sum = coll.length := by
  have h1 : ∀ v : Value, (groupOf coll k v).length
      = (coll.map (fun d => getValD d k)).count v := by
    intro v
    rw [groupOf, List.count, List.countP_map, ← List.countP_eq_length_filter]
    refine List.countP_congr (fun d _ => ?_)
    simp [Function.comp]
  rw [groupKeys, List.map_congr_left (fun v _ => h1 v)]
  have h2 := List.sum_map_count_dedup_eq_length (coll.map (fun d => getValD d k))
  rw [h2, List.length_map]

/-- C4: the pipeline [Group by genre with average price, Sort by average
price descending] produces its groups in non-increasing order of average
price; the group sizes over the distinct genre keys sum to the input
size (every document lands in exactly one group); and each output
document is a `_id` field holding the group key plus one field for the
single accumulator. -/
theorem avgPriceByGenre_pipeline (coll : List Document) :
    (avgPriceByGenre coll).Pairwise
      (fun a b => getNum b "avgPrice" ≤ getNum a "avgPrice") ∧
    ((groupKeys coll "genre").map (fun v => (groupOf coll "genre" v).length)).sum
      = coll.length ∧
    ∀ g ∈ avgPriceByGenre coll, ∃ v ∈ groupKeys coll "genre",
      g = [("_id", v), ("avgPrice", Value.num (avgOf (groupOf coll "genre" v) "price"))] := by
  have htot : ∀ a b, descBy "avgPrice" a b = true ∨ descBy "avgPrice" b a = true := by
    intro a b
    rcases le_total (getNum b "avgPrice") (getNum a "avgPrice") with h | h
    · exact Or.inl (decide_eq_true h)
    · exact Or.inr (decide_eq_true h)
  have htrans : ∀ a b c, descBy "avgPrice" a b = true → descBy "avgPrice" b c = true →
      descBy "avgPrice" a c = true := by
    intro a b c h1 h2
    exact decide_eq_true (le_trans (of_decide_eq_true h2) (of_decide_eq_true h1))
  refine ⟨?_, sum_groupOf_lengths coll "genre", ?_⟩
  · exact (sortBy_pairwise (descBy "avgPrice") htot htrans _).imp
      (fun h => of_decide_eq_true h)
  · intro g hg
    have hmem : g ∈ groupAvg coll "genre" "avgPrice" "price" :=
      ((sortBy_perm (descBy "avgPrice") _).mem_iff).1 hg
    obtain ⟨v, hv, rfl⟩ := List.mem_map.1 hmem
    exact ⟨v, hv, rfl⟩

/-- `updateOne` either finds no match and is the identity, or rewrites
exactly the first matching document. -/
theorem updateOne_cases (coll : List Document) (f : Filter) (c : List (String × Value)) :
    (updateOne coll f c = coll ∧ ∀ e ∈ coll, matchesFilter e f = false) ∨
    ∃ pre d post, coll = pre ++ d :: post ∧ (∀ e ∈ pre, matchesFilter e f = false) ∧
      matchesFilter d f = true ∧ updateOne coll f c = pre ++ applySet c d :: post := by
  induction coll with
  | nil => exact Or.inl ⟨rfl, by simp⟩
  | cons d ds ih =>
    by_cases hd : matchesFilter d f
    · refine Or.inr ⟨[], d, ds, rfl, by simp, hd, ?_⟩
      simp [updateOne, hd]
    · rcases ih with ⟨heq, hall⟩ | ⟨pre, d0, post, hsplit, hpre, hd0, heq⟩
      · refine Or.inl ⟨by simp [updateOne, hd, heq], ?_⟩
        intro e he
        rcases List.mem_cons.1 he with rfl | he
        · simpa using hd
        · exact hall e he
      · refine Or.inr ⟨d :: pre, d0, post, by rw [hsplit, List.cons_append], ?_, hd0, ?_⟩
        · intro e he
          rcases List.mem_cons.1 he with rfl | he
          · simpa using hd
          · exact hpre e he
        · simp [updateOne, hd, heq]

/-- `deleteOne` either finds no match and is a counted no-op, or removes
exactly the first matching document. -/
theorem deleteOne_cases (coll : List Document) (f : Filter) :
    (deleteOne coll f = (coll, 0) ∧ ∀ e ∈ coll, matchesFilter e f = false) ∨
    ∃ pre d post, coll = pre ++ d :: post ∧ (∀ e ∈ pre, matchesFilter e f = false) ∧
      matchesFilter d f = true ∧ deleteOne coll f = (pre ++ post, 1) := by
  induction coll with
  | nil => exact Or.inl ⟨rfl, by simp⟩
  | cons d ds ih =>
    by_cases hd : matchesFilter d f
    · refine Or.inr ⟨[], d, ds, rfl, by simp, hd, ?_⟩
      simp [deleteOne, hd]
    · rcases ih with ⟨heq, hall⟩ | ⟨pre, d0, post, hsplit, hpre, hd0, heq⟩
      · refine Or.inl ⟨by simp [deleteOne, hd, heq], ?_⟩
        intro e he
        rcases List.mem_cons.1 he with rfl | he
        · simpa using hd
        · exact hall e he
      · refine Or.inr ⟨d :: pre, d0, post, by rw [hsplit, List.cons_append], ?_, hd0, ?_⟩
        · intro e he
          rcases List.mem_cons.1 he with rfl | he
          · simpa using hd
          · exact hpre e he
        · simp [deleteOne, hd, heq]

/-- A document matches the `{title: "1984"}` filter exactly when its
title field holds "1984". -/
theorem matches1984_iff (d : Document) :
    matchesFilter d filter1984 = true ↔ getField d "title" = some (Value.str "1984") := by
  simp [matchesFilter, matchesPred, filter1984]

/-- A document matches the `{title: "Moby Dick"}` filter exactly when
its title field holds "Moby Dick". -/
theorem matchesMoby_iff (d : Document) :
    matchesFilter d filterMoby = true ↔ getField d "title" = some (Value.str "Moby Dick") := by
  simp [matchesFilter, matchesPred, filterMoby]

/-- If a list with at most one satisfying element splits around a
satisfying element, nothing after the split point satisfies. -/
theorem countP_post_zero (p : Document → Bool) (pre post : List Document) (d : Document)
    (hp : p d = true) (h : (pre ++ d :: post).countP p ≤ 1) :
    ∀ e ∈ post, p e = false := by
  simp only [List.countP_append, List.countP_cons, hp, if_pos] at h
  have hz : post.countP p = 0 := by omega
  intro e he
  simpa using List.countP_eq_zero.1 hz e he

/-- C10: the script's operations run in one fixed sequential order, so
Task 2's writes are visible to every later read: if the initial
collection holds at most one document titled "1984" and at most one
titled "Moby Dick", then after Task 2 every `find` (with any filter)
returns price 15 for any document titled "1984" and never returns a
document titled "Moby Dick". -/
theorem run_sequential_visibility (coll : List Document)
    (h1 : coll.countP (fun d => matchesFilter d filter1984) ≤ 1)
    (h2 : coll.countP (fun d => matchesFilter d filterMoby) ≤ 1) :
    ∀ f : Filter, ∀ d ∈ find (task2 coll) f,
      (getField d "title" = some (Value.str "1984") →
        getField d "price" = some (Value.num 15)) ∧
      getField d "title" ≠ some (Value.str "Moby Dick") := by
  have hA : ∀ d ∈ updateOne coll filter1984 set15,
      getField d "title" = some (Value.str "1984") →
        getField d "price" = some (Value.num 15) := by
    rcases updateOne_cases coll filter1984 set15 with
      ⟨heq, hall⟩ | ⟨pre, d0, post, hsplit, hpre, hd0, heq⟩
    · rw [heq]
      intro d hd ht
      exact absurd ((matches1984_iff d).2 ht) (by simp [hall d hd])
    · rw [heq]
      intro d hd ht
      rcases List.mem_append.1 hd with hd | hd
      · exact absurd ((matches1984_iff d).2 ht) (by simp [hpre d hd])
      · rcases List.mem_cons.1 hd with rfl | hd
        · exact getField_applySet_mem set15 d0 "price" (Value.num 15) (by decide) (by decide)
        · have hz : ∀ e ∈ post, matchesFilter e filter1984 = false := by
            apply countP_post_zero _ pre post d0 hd0
            rw [← hsplit]
            exact h1
          exact absurd ((matches1984_iff d).2 ht) (by simp [hz d hd])
  have hMU : (updateOne coll filter1984 set15).countP
      (fun d => matchesFilter d filterMoby) ≤ 1 := by
    rcases updateOne_cases coll filter1984 set15 with
      ⟨heq, _⟩ | ⟨pre, d0, post, hsplit, _, _, heq⟩
    · rw [heq]
      exact h2
    · rw [heq]
      have hpres : matchesFilter (applySet set15 d0) filterMoby
          = matchesFilter d0 filterMoby :=
        matchesFilter_applySet_of_disjoint filterMoby set15 (by decide) d0
      rw [hsplit] at h2
      simpa [List.countP_append, List.countP_cons, hpres] using h2
  have hfinal : ∀ d ∈ task2 coll,
      (getField d "title" = some (Value.str "1984") →
        getField d "price" = some (Value.num 15)) ∧
      getField d "title" ≠ some (Value.str "Moby Dick") := by
    rcases deleteOne_cases (updateOne coll filter1984 set15) filterMoby with
      ⟨heq, hall⟩ | ⟨pre, d0, post, hsplit, hpre, hd0, heq⟩
    · have ht2 : task2 coll = updateOne coll filter1984 set15 := by
        unfold task2
        rw [heq]
      rw [ht2]
      intro d hd
      refine ⟨hA d hd, fun hc => ?_⟩
      exact absurd ((matchesMoby_iff d).2 hc) (by simp [hall d hd])
    · have ht2 : task2 coll = pre ++ post := by
        unfold task2
        rw [heq]
      rw [ht2]
      intro d hd
      have hdU : d ∈ updateOne coll filter1984 set15 := by
        rw [hsplit]
        rcases List.mem_append.1 hd with h | h
        · exact List.mem_append.2 (Or.inl h)
        · exact List.mem_append.2 (Or.inr (List.mem_cons_of_mem d0 h))
      refine ⟨hA d hdU, ?_⟩
      rcases List.mem_append.1 hd with h | h
      · exact fun hc => absurd ((matchesMoby_iff d).2 hc) (by simp [hpre d h])
      · have hz : ∀ e ∈ post, matchesFilter e filterMoby = false := by
          apply countP_post_zero _ pre post d0 hd0
          rw [← hsplit]
          exact hMU
        exact fun hc => absurd ((matchesMoby_iff d).2 hc) (by simp [hz d h])
  intro f d hd
  exact hfinal d (List.mem_filter.1 hd).1

/-- Witness for C10: on a concrete initial collection holding one
"1984" (price 10) and one "Moby Dick", the document returned by a find
after Task 2 has price 15 and is not "Moby Dick". -/
theorem run_sequential_visibility_witness :
    (getField [("title", Value.str "1984"), ("price", Value.num 15)] "title"
        = some (Value.str "1984") →
      getField [("title", Value.str "1984"), ("price", Value.num 15)] "price"
        = some (Value.num 15)) ∧
    getField [("title", Value.str "1984"), ("price", Value.num 15)] "title"
      ≠ some (Value.str "Moby Dick") :=
  run_sequential_visibility
    [[("title", Value.str "1984"), ("price", Value.num 10)],
     [("title", Value.str "Moby Dick"), ("price", Value.num 8)]]
    (by decide) (by decide) []
    [("title", Value.str "1984"), ("price", Value.num 15)] (by decide)

end BookstoreQueries
